import Mathlib

/-!
Verification of the BraGeo ownership-ledger engine
(`src/document_processing/modules/logic_handler.py`).

The Python module is shallowly embedded here: Python floats are modelled as
exact rationals (`ℚ`), Python dicts holding the two ledgers as insertion-ordered
association lists, raised-and-caught exceptions as `Except`, and `None` as
`Option.none`.  Every definition mirrors the corresponding Python function,
keeping its name where Lean allows.
-/

set_option allowUnsafeReducibility true

unseal Rat.mul Rat.inv Rat.add Rat.sub

namespace BraGeo

/-- Python `str.lower` restricted to the characters this repository
manipulates: ASCII letters plus the Latin-1 uppercase range À–Þ (except ×). -/
def pyLowerChar (c : Char) : Char :=
  if 65 ≤ c.toNat ∧ c.toNat ≤ 90 then Char.ofNat (c.toNat + 32)
  else if 192 ≤ c.toNat ∧ c.toNat ≤ 222 ∧ c.toNat ≠ 215 then Char.ofNat (c.toNat + 32)
  else c

/-- Python `str.upper`, same character coverage as `pyLowerChar`. -/
def pyUpperChar (c : Char) : Char :=
  if 97 ≤ c.toNat ∧ c.toNat ≤ 122 then Char.ofNat (c.toNat - 32)
  else if 224 ≤ c.toNat ∧ c.toNat ≤ 254 ∧ c.toNat ≠ 247 then Char.ofNat (c.toNat - 32)
  else c

def pyLowerStr (s : String) : String := String.mk (s.data.map pyLowerChar)

/-- Python `str.strip` on a character list. -/
def pyStripChars (cs : List Char) : List Char :=
  (((cs.dropWhile Char.isWhitespace).reverse.dropWhile Char.isWhitespace)).reverse

/-- Python `str.strip`. -/
def pyStrip (s : String) : String := String.mk (pyStripChars s.data)

/-- Does `needle` occur at the start of `hay`? -/
def seqStartsWith : List Char → List Char → Bool
  | [], _ => true
  | _ :: _, [] => false
  | c :: cs, d :: ds => c = d && seqStartsWith cs ds

/-- Python `needle in hay` on character lists. -/
def seqContains (needle : List Char) : List Char → Bool
  | [] => needle.isEmpty
  | c :: t => seqStartsWith needle (c :: t) || seqContains needle t

/-- Python `needle in hay` for strings. -/
def substr (needle hay : String) : Bool := seqContains needle.data hay.data

/-- Python `str.split(sep)` for a one-character separator. -/
def splitOnChar (sep : Char) : List Char → List (List Char)
  | [] => [[]]
  | c :: cs =>
    if c = sep then [] :: splitOnChar sep cs
    else
      match splitOnChar sep cs with
      | [] => [[c]]
      | h :: t => (c :: h) :: t

/-- Value of a decimal digit character. -/
def digitVal (c : Char) : Option ℕ :=
  if c.isDigit then some (c.toNat - 48) else Option.none

/-- Value of a nonempty all-digit character list (helper; assumes digits). -/
def natValD (cs : List Char) : ℕ :=
  cs.foldl (fun a c => 10 * a + (c.toNat - 48)) 0

/-- Python `float(s)` for a string made only of digits and at most one dot
(the shape produced by the cleaning regex in `parse_percentual`). -/
def pyFloatChars (cs : List Char) : Option ℚ :=
  match splitOnChar '.' cs with
  | [ds] =>
    if ds ≠ [] ∧ ds.all Char.isDigit then some ((natValD ds : ℚ)) else Option.none
  | [ip, fp] =>
    if (ip ≠ [] ∨ fp ≠ []) ∧ ip.all Char.isDigit ∧ fp.all Char.isDigit then
      some ((natValD ip : ℚ) + (natValD fp : ℚ) / (10 : ℚ) ^ fp.length)
    else Option.none
  | _ => Option.none

/-- Python `int(s)`: optional surrounding whitespace, optional sign,
then a nonempty digit run. -/
def pyIntChars (cs0 : List Char) : Option ℤ :=
  let cs := pyStripChars cs0
  match cs with
  | '+' :: t =>
    if t ≠ [] ∧ t.all Char.isDigit then some ((natValD t : ℤ)) else Option.none
  | '-' :: t =>
    if t ≠ [] ∧ t.all Char.isDigit then some (-(natValD t : ℤ)) else Option.none
  | t =>
    if t ≠ [] ∧ t.all Char.isDigit then some ((natValD t : ℤ)) else Option.none

/-- The cleaning step `re.sub(r'[^\d.,]', '', txt).replace(',', '.')`. -/
def cleanChars (cs : List Char) : List Char :=
  (cs.filter (fun c => c.isDigit || c = '.' || c = ',')).map
    (fun c => if c = ',' then '.' else c)

/-- A dynamically typed value reaching `parse_percentual`. -/
inductive PyVal where
  | none
  | float (q : ℚ)
  | str (s : String)
deriving DecidableEq, Repr

/-- The two exception classes caught by `parse_percentual`. -/
inductive PErr where
  | valueError
  | zeroDivisionError
deriving DecidableEq, Repr

deriving instance DecidableEq for Except

/-- The sentinel spellings treated as "unknown" by `parse_percentual`. -/
def sentinelSet : List String :=
  ["não informado", "nao informado", "", "indeterminado", "parcial"]

/-- The body of the `try` block of `parse_percentual`, on the stripped text:
fraction syntax via `Fraction(int(a), int(b))` (a zero denominator raises
`ZeroDivisionError`), otherwise `float` of the cleaned text; parse failures
raise `ValueError`. -/
def parse_body (txt : List Char) : Except PErr ℚ :=
  if txt.contains '/' then
    match splitOnChar '/' txt with
    | p0 :: p1 :: _ =>
      match pyIntChars p0, pyIntChars p1 with
      | some a, some b =>
        if b = 0 then Except.error PErr.zeroDivisionError
        else Except.ok (((a : ℚ) / (b : ℚ)) * 100)
      | _, _ => Except.error PErr.valueError
    | _ => Except.error PErr.valueError
  else
    match pyFloatChars (cleanChars txt) with
    | some v => Except.ok (if v ≤ 1 then v * 100 else v)
    | Option.none => Except.error PErr.valueError

/-- `parse_percentual`: floats are returned as they are; falsy values and the
sentinel spellings give `None`; otherwise the `try` body runs and any caught
exception gives `None`. -/
def parse_percentual : PyVal → Option ℚ
  | PyVal.float q => some q
  | PyVal.none => Option.none
  | PyVal.str s =>
    if s = "" then Option.none
    else if sentinelSet.contains (pyLowerStr (pyStrip s)) then Option.none
    else
      match parse_body (pyStrip s).data with
      | Except.ok q => some q
      | Except.error _ => Option.none

/-- A `datetime` value as far as this engine uses it (the five accepted
formats carry no time-of-day component). -/
structure DateT where
  year : ℕ
  month : ℕ
  day : ℕ
deriving DecidableEq, Repr

def isLeap (y : ℕ) : Bool :=
  (y % 4 = 0 && y % 100 ≠ 0) || y % 400 = 0

def daysInMonth (y m : ℕ) : ℕ :=
  if m = 2 then (if isLeap y then 29 else 28)
  else if m = 4 ∨ m = 6 ∨ m = 9 ∨ m = 11 then 30
  else 31

/-- The `datetime(year, month, day)` constructor validation. -/
def mkDatetime (y m d : ℕ) : Option DateT :=
  if 1 ≤ y ∧ y ≤ 9999 ∧ 1 ≤ m ∧ m ≤ 12 ∧ 1 ≤ d ∧ d ≤ daysInMonth y m then
    some ⟨y, m, d⟩
  else Option.none

/-- The `%d` directive of `strptime`: one or two digits, value 1–31. -/
def parseDayChars : List Char → Option ℕ
  | [c] =>
    match digitVal c with
    | some v => if 1 ≤ v then some v else Option.none
    | Option.none => Option.none
  | [c1, c2] =>
    match digitVal c1, digitVal c2 with
    | some a, some b =>
      if 1 ≤ 10 * a + b ∧ 10 * a + b ≤ 31 then some (10 * a + b) else Option.none
    | _, _ => Option.none
  | _ => Option.none

/-- The `%m` directive of `strptime`: one or two digits, value 1–12. -/
def parseMonthChars : List Char → Option ℕ
  | [c] =>
    match digitVal c with
    | some v => if 1 ≤ v then some v else Option.none
    | Option.none => Option.none
  | [c1, c2] =>
    match digitVal c1, digitVal c2 with
    | some a, some b =>
      if 1 ≤ 10 * a + b ∧ 10 * a + b ≤ 12 then some (10 * a + b) else Option.none
    | _, _ => Option.none
  | _ => Option.none

/-- The `%Y` directive of `strptime`: exactly four digits. -/
def parseYearChars : List Char → Option ℕ
  | [c1, c2, c3, c4] =>
    match digitVal c1, digitVal c2, digitVal c3, digitVal c4 with
    | some a, some b, some c, some d => some (((a * 10 + b) * 10 + c) * 10 + d)
    | _, _, _, _ => Option.none
  | _ => Option.none

/-- `strptime(s, "%d/%m/%Y")`. -/
def fmtDMY (cs : List Char) : Option DateT :=
  match splitOnChar '/' cs with
  | [a, b, c] =>
    match parseDayChars a, parseMonthChars b, parseYearChars c with
    | some d, some m, some y => mkDatetime y m d
    | _, _, _ => Option.none
  | _ => Option.none

/-- `strptime(s, "%m/%d/%Y")`. -/
def fmtMDY (cs : List Char) : Option DateT :=
  match splitOnChar '/' cs with
  | [a, b, c] =>
    match parseMonthChars a, parseDayChars b, parseYearChars c with
    | some m, some d, some y => mkDatetime y m d
    | _, _, _ => Option.none
  | _ => Option.none

/-- `strptime(s, "%Y-%m-%d")`. -/
def fmtYMD (cs : List Char) : Option DateT :=
  match splitOnChar '-' cs with
  | [a, b, c] =>
    match parseYearChars a, parseMonthChars b, parseDayChars c with
    | some y, some m, some d => mkDatetime y m d
    | _, _, _ => Option.none
  | _ => Option.none

/-- One split attempt for the compact `%d%m%Y` format: day on the first
`dl` characters, month on the next `ml`, year on the last four. -/
def tryCompact (dl ml : ℕ) (cs : List Char) : Option DateT :=
  if cs.length = dl + ml + 4 then
    match parseDayChars (cs.take dl), parseMonthChars ((cs.drop dl).take ml),
      parseYearChars ((cs.drop dl).drop ml) with
    | some d, some m, some y => mkDatetime y m d
    | _, _, _ => Option.none
  else Option.none

/-- `strptime(s, "%d%m%Y")`; the regex alternation prefers two-digit
matches for `%d` and `%m`, backtracking to shorter ones. -/
def fmtCompact (cs : List Char) : Option DateT :=
  match tryCompact 2 2 cs with
  | some d => some d
  | Option.none =>
    match tryCompact 2 1 cs with
    | some d => some d
    | Option.none =>
      match tryCompact 1 2 cs with
      | some d => some d
      | Option.none => tryCompact 1 1 cs

/-- `strptime(s, "%Y/%m/%d")`. -/
def fmtYMDslash (cs : List Char) : Option DateT :=
  match splitOnChar '/' cs with
  | [a, b, c] =>
    match parseYearChars a, parseMonthChars b, parseDayChars c with
    | some y, some m, some d => mkDatetime y m d
    | _, _, _ => Option.none
  | _ => Option.none

/-- `parse_data`: strips the string, tries the five formats in order and
falls back to the sentinel date 1900-01-01 (with a warning). -/
def parse_data (s : String) : DateT :=
  let cs := pyStripChars s.data
  match fmtDMY cs with
  | some d => d
  | Option.none =>
    match fmtMDY cs with
    | some d => d
    | Option.none =>
      match fmtYMD cs with
      | some d => d
      | Option.none =>
        match fmtCompact cs with
        | some d => d
        | Option.none =>
          match fmtYMDslash cs with
          | some d => d
          | Option.none => ⟨1900, 1, 1⟩

/-- Decimal digit character for `n < 10`. -/
def digitChar : ℕ → Char
  | 0 => '0' | 1 => '1' | 2 => '2' | 3 => '3' | 4 => '4'
  | 5 => '5' | 6 => '6' | 7 => '7' | 8 => '8' | _ => '9'

/-- Zero-padded two-digit field (`%d` and `%m` of `strftime`). -/
def two (n : ℕ) : List Char := [digitChar (n / 10), digitChar (n % 10)]

/-- The `%Y` directive of `strftime` on Linux: decimal digits without
zero padding. -/
def yearChars (y : ℕ) : List Char :=
  if 1000 ≤ y then
    [digitChar (y / 1000), digitChar (y / 100 % 10), digitChar (y / 10 % 10), digitChar (y % 10)]
  else if 100 ≤ y then [digitChar (y / 100), digitChar (y / 10 % 10), digitChar (y % 10)]
  else if 10 ≤ y then [digitChar (y / 10), digitChar (y % 10)]
  else [digitChar y]

/-- `strftime("%d/%m/%Y")`. -/
def strftimeDMY (d : DateT) : String :=
  String.mk (two d.day ++ '/' :: two d.month ++ '/' :: yearChars d.year)

/-- A date value in the range where the canonical `strftime`/`strptime`
round trip is exact: a valid calendar date with a four-digit year. -/
def dateOK (d : DateT) : Prop :=
  1000 ≤ d.year ∧ d.year ≤ 9999 ∧ 1 ≤ d.month ∧ d.month ≤ 12 ∧
    1 ≤ d.day ∧ d.day ≤ daysInMonth d.year d.month

instance (d : DateT) : Decidable (dateOK d) := by
  unfold dateOK
  infer_instance

/-- NFKD decomposition followed by ASCII re-encoding with `ignore`, for the
uppercase characters produced by `pyUpperChar`: accented Latin letters fold
to their base letter, other non-ASCII characters are dropped. -/
def asciiFold (c : Char) : List Char :=
  let n := c.toNat
  if n ≤ 127 then [c]
  else if 192 ≤ n ∧ n ≤ 197 then ['A']
  else if n = 199 then ['C']
  else if 200 ≤ n ∧ n ≤ 203 then ['E']
  else if 204 ≤ n ∧ n ≤ 207 then ['I']
  else if n = 209 then ['N']
  else if 210 ≤ n ∧ n ≤ 214 then ['O']
  else if 217 ≤ n ∧ n ≤ 220 then ['U']
  else if n = 221 then ['Y']
  else []

/-- `normalizar_nome`: strip, upper-case, strip accents, and keep only
capital letters, digits and spaces. -/
def normalizar_nome (nome : String) : String :=
  let up := (pyStripChars nome.data).map pyUpperChar
  let folded := up.foldr (fun c acc => asciiFold c ++ acc) []
  String.mk (folded.filter fun c =>
    decide (('A' ≤ c ∧ c ≤ 'Z') ∨ ('0' ≤ c ∧ c ≤ '9') ∨ c = ' '))

/-- Python `a or b` for an optional string, where `None` and `""` are falsy. -/
def pyOr (a : Option String) (b : String) : String :=
  match a with
  | some s => if s = "" then b else s
  | Option.none => b

/-- A spouse dictionary as extracted upstream (`Name`, `Nome`, `CPF` keys). -/
structure SpouseDict where
  nameK : Option String
  nomeK : Option String
  cpfK : Option String
deriving DecidableEq, Repr

/-- `processar_conjuge`: a dict input yields `{"Nome": ..., "CPF": ...}`
(with "Não informado" defaults); anything else yields the empty dict,
modelled as `Option.none`. -/
def processar_conjuge : Option SpouseDict → Option (String × String)
  | some sd =>
    some (pyOr sd.nameK (pyOr sd.nomeK "Não informado"), pyOr sd.cpfK "Não informado")
  | Option.none => Option.none

/-- An agent or beneficiary reference inside an action (`Name`, `CPF`,
`Percentage_Transferred`/`Percentage_Received`, `Spouse`). -/
structure Ref where
  name : Option String
  cpf : Option String
  pct : PyVal
  spouse : Option SpouseDict
deriving DecidableEq, Repr

/-- `chave_proprietario`: the stripped CPF when present and non-blank,
otherwise the normalized name. -/
def chave_proprietario (item : Ref) : String :=
  match item.cpf with
  | some c => if pyStrip c ≠ "" then pyStrip c else normalizar_nome (item.name.getD "")
  | Option.none => normalizar_nome (item.name.getD "")

/-- A ledger record (`Nome`, `CPF`, `Percentual`, `Cônjuge`). -/
structure Registro where
  nome : Option String
  cpf : String
  percentual : ℚ
  conjuge : Option (String × String)
deriving DecidableEq, Repr

/-- The record built for a holder first entering a ledger. -/
def mkNovo (r : Ref) (pct : ℚ) : Registro :=
  ⟨r.name, r.cpf.getD "Não informado", pct, processar_conjuge r.spouse⟩

/-- A ledger: an insertion-ordered mapping from key to record, as a Python
dict is. -/
abbrev Ledger := List (String × Registro)

/-- Dict lookup. -/
def lget : Ledger → String → Option Registro
  | [], _ => Option.none
  | (k', r) :: t, k => if k' = k then some r else lget t k

/-- Dict assignment `d[k] = r`: updates in place, else appends. -/
def lset : Ledger → String → Registro → Ledger
  | [], k, r => [(k, r)]
  | (k', r') :: t, k, r => if k' = k then (k, r) :: t else (k', r') :: lset t k r

/-- Dict deletion `del d[k]` (removes the first matching entry). -/
def ldel : Ledger → String → Ledger
  | [], _ => []
  | (k', r') :: t, k => if k' = k then t else (k', r') :: ldel t k

/-- The keys of a ledger. -/
def keysOf (P : Ledger) : List String := P.map Prod.fst

/-- Sum of all recorded percentages. -/
def totalPct (P : Ledger) : ℚ := (P.map fun kv => kv.2.percentual).sum

/-- Percentage recorded under a key, `0` when absent. -/
def pctOf (P : Ledger) (k : String) : ℚ :=
  match lget P k with
  | some r => r.percentual
  | Option.none => 0

/-- An action object; `Action`/`Tipo da Ação` and `Date`/`Data` are the
alias key pairs the code tolerates. -/
structure Acao where
  action : Option String
  tipoDaAcao : Option String
  date : Option String
  data : Option String
  agents : List Ref
  beneficiaries : List Ref
  additionalInfo : Option String
deriving DecidableEq, Repr

/-- `obter_tipo_acao`. -/
def obter_tipo_acao (a : Acao) : String :=
  pyStrip (pyOr a.action (pyOr a.tipoDaAcao ""))

/-- `acao.get("Date") or acao.get("Data", "")`. -/
def pyGetDate (a : Acao) : String := pyOr a.date (pyOr a.data "")

/-- Strict lexicographic code-point comparison on character lists. -/
def charListLt : List Char → List Char → Bool
  | [], [] => false
  | [], _ :: _ => true
  | _ :: _, [] => false
  | a :: xs, b :: ys => a.toNat < b.toNat || (a = b && charListLt xs ys)

/-- Code-point comparison `s ≤ t` on strings, as Python compares them. -/
def strLeB (s t : String) : Bool := !charListLt t.data s.data

/-- The relation `sorted` uses on plain string lists. -/
def strRel (s t : String) : Prop := strLeB s t = true

instance : DecidableRel strRel := fun _ _ => inferInstanceAs (Decidable (_ = true))

/-- Python `sorted` on a string list (stable, but duplicates are identical
strings, so any sort by `≤` agrees). -/
def pySortStrings (l : List String) : List String := l.insertionSort strRel

/-- The deduplication key of `normalizar_e_ordenar_acoes`: lower-cased type
label, raw date string, sorted agent names, sorted beneficiary names. -/
def dedupKey (a : Acao) : String × String × List String × List String :=
  (pyLowerStr (obter_tipo_acao a), pyGetDate a,
   pySortStrings (a.agents.map fun r => r.name.getD ""),
   pySortStrings (a.beneficiaries.map fun r => r.name.getD ""))

/-- The in-place rewrite `acao["Date"] = data_dt.strftime("%d/%m/%Y")`. -/
def setCanonicalDate (a : Acao) : Acao :=
  { a with date := some (strftimeDMY (parse_data (pyGetDate a))) }

/-- The first loop of `normalizar_e_ordenar_acoes`: keep the first action
per key (key computed on the raw date string), canonicalizing the kept
action's date. -/
def dedupLoop : List Acao → List (String × String × List String × List String) → List Acao
  | [], _ => []
  | a :: rest, seen =>
    if dedupKey a ∈ seen then dedupLoop rest seen
    else setCanonicalDate a :: dedupLoop rest (dedupKey a :: seen)

/-- Strict lexicographic comparison of dates. -/
def dateLtB (a b : DateT) : Bool :=
  a.year < b.year ||
    (a.year = b.year && (a.month < b.month || (a.month = b.month && a.day < b.day)))

/-- The sort key order: (parsed date, lower-cased type label), dates first,
ties broken by the label. -/
def acaoKeyLe (x y : Acao) : Bool :=
  let dx := parse_data (pyGetDate x)
  let dy := parse_data (pyGetDate y)
  dateLtB dx dy ||
    (decide (dx = dy) && strLeB (pyLowerStr (obter_tipo_acao x)) (pyLowerStr (obter_tipo_acao y)))

/-- The sort relation as a `Prop`, for `List.insertionSort`. -/
def acaoRel (x y : Acao) : Prop := acaoKeyLe x y = true

instance : DecidableRel acaoRel := fun _ _ => inferInstanceAs (Decidable (_ = true))

/-- `normalizar_e_ordenar_acoes`: deduplicate (keeping first occurrences and
canonicalizing dates), then stably sort by (parsed date, lower-cased label).
Python's `sorted` is stable; `insertionSort` with a total `≤` relation
computes the same permutation. -/
def normalizar_e_ordenar_acoes (acoes : List Acao) : List Acao :=
  (dedupLoop acoes []).insertionSort acaoRel

/-- The bootstrap block of `atualizar_proprietarios_parcial`: one record per
agent, each holding `100 / len(agentes)` percent. -/
def equalInit (agentes : List Ref) : Ledger :=
  agentes.foldl
    (fun acc a => lset acc (chave_proprietario a) (mkNovo a (100 / (agentes.length : ℚ))))
    []

/-- The agent loop of `atualizar_proprietarios_parcial`: agents with an
unknown transferred percentage are skipped; known ones are debited
`currentShare * frac / 100`, records dropping under `1e-4` are deleted, and
the debits are accumulated. -/
def debitAgentes (P0 : Ledger) (agentes : List Ref) : Ledger × ℚ :=
  agentes.foldl
    (fun st a =>
      match parse_percentual a.pct with
      | Option.none => st
      | some frac =>
        match lget st.1 (chave_proprietario a) with
        | Option.none => st
        | some r =>
          let transfer := r.percentual * (frac / 100)
          let nv := r.percentual - transfer
          let P1 := lset st.1 (chave_proprietario a) { r with percentual := nv }
          let P2 := if nv < 1 / 10000 then ldel P1 (chave_proprietario a) else P1
          (P2, st.2 + transfer))
    (P0, 0)

/-- The beneficiary-percentage computation of
`atualizar_proprietarios_parcial`: equal split of `100` when none declares;
otherwise `None` entries are zeroed when the declared sum exceeds 100, then
undeclared beneficiaries equally absorb `max(0, transferred − declared)`,
or, when all declared and their sum is under the transferred total, each is
topped up in proportion to its own declared share. -/
def distTransfer (beneficiarios : List Ref) (total_transferido : ℚ) : List (Ref × ℚ) :=
  let binfo : List (Ref × Option ℚ) := beneficiarios.map fun b => (b, parse_percentual b.pct)
  if (binfo.all fun x => x.2.isNone) ∧ binfo ≠ [] then
    binfo.map fun x => (x.1, 100 / (binfo.length : ℚ))
  else
    let td0 := (binfo.map fun x => x.2.getD 0).sum
    let binfo1 := if td0 > 100 then binfo.map (fun x => (x.1, some (x.2.getD 0))) else binfo
    let td := (binfo1.map fun x => x.2.getD 0).sum
    let remaining := max 0 (total_transferido - td)
    let nundef := binfo1.countP fun x => x.2.isNone
    if nundef > 0 then
      binfo1.map fun x => (x.1, x.2.getD (remaining / (nundef : ℚ)))
    else if td < total_transferido then
      binfo1.map fun x =>
        (x.1, x.2.getD 0 + (if td > 0 then remaining * (x.2.getD 0 / td) else 0))
    else
      binfo1.map fun x => (x.1, x.2.getD 0)

/-- Crediting one beneficiary: accumulate into an existing record or create
a new one. -/
def creditStep (P : Ledger) (b : Ref) (q : ℚ) : Ledger :=
  let k := chave_proprietario b
  match lget P k with
  | some r => lset P k { r with percentual := r.percentual + q }
  | Option.none => lset P k (mkNovo b q)

/-- The beneficiary credit loop. -/
def creditBenefs (P0 : Ledger) (dist : List (Ref × ℚ)) : Ledger :=
  dist.foldl (fun P x => creditStep P x.1 x.2) P0

/-- `atualizar_proprietarios_parcial` (shared by sale and donation). -/
def atualizar_proprietarios_parcial (P : Ledger) (agentes beneficiarios : List Ref) : Ledger :=
  let P0 := if P = [] ∧ agentes ≠ [] then equalInit agentes else P
  let st := debitAgentes P0 agentes
  creditBenefs st.1 (distTransfer beneficiarios st.2)

/-- `parse_percentual(...) or 100.0`: Python treats both `None` and `0.0`
as falsy, so both default to 100. -/
def pesoHeranca (b : Ref) : ℚ :=
  match parse_percentual b.pct with
  | Option.none => 100
  | some q => if q = 0 then 100 else q

/-- Processing of one deceased agent inside `processar_obito`: if present,
the record is deleted and its share distributed to the heirs weighted by
`pesoHeranca`, normalized by the weight sum (each heir receives the full
share when that sum is not positive). -/
def obitoStep (beneficiarios : List Ref) (P : Ledger) (a : Ref) : Ledger :=
  match lget P (chave_proprietario a) with
  | Option.none => P
  | some r =>
    let share := r.percentual
    let P1 := ldel P (chave_proprietario a)
    let totalFrac := (beneficiarios.map pesoHeranca).sum
    beneficiarios.foldl
      (fun Q b =>
        creditStep Q b (if totalFrac > 0 then share * (pesoHeranca b / totalFrac) else share))
      P1

/-- `processar_obito`. -/
def processar_obito (P : Ledger) (agentes beneficiarios : List Ref) : Ledger :=
  agentes.foldl (obitoStep beneficiarios) P

/-- The beneficiary-percentage computation of `processar_partilha`; unlike
the transfer one it has no `> 100` normalization step. -/
def distPartilha (beneficiarios : List Ref) (total_removido : ℚ) : List (Ref × ℚ) :=
  let binfo : List (Ref × Option ℚ) := beneficiarios.map fun b => (b, parse_percentual b.pct)
  if (binfo.all fun x => x.2.isNone) ∧ binfo ≠ [] then
    binfo.map fun x => (x.1, 100 / (binfo.length : ℚ))
  else
    let td := (binfo.map fun x => x.2.getD 0).sum
    let remaining := max 0 (total_removido - td)
    let nundef := binfo.countP fun x => x.2.isNone
    if nundef > 0 then
      binfo.map fun x => (x.1, x.2.getD (remaining / (nundef : ℚ)))
    else if td < total_removido then
      binfo.map fun x =>
        (x.1, x.2.getD 0 + (if td > 0 then remaining * (x.2.getD 0 / td) else 0))
    else
      binfo.map fun x => (x.1, x.2.getD 0)

/-- `processar_partilha`: remove every listed agent pooling their shares,
then credit the pool to the beneficiaries. -/
def processar_partilha (P0 : Ledger) (agentes beneficiarios : List Ref) : Ledger :=
  let st := agentes.foldl
    (fun (st : Ledger × ℚ) a =>
      match lget st.1 (chave_proprietario a) with
      | some r => (ldel st.1 (chave_proprietario a), st.2 + r.percentual)
      | Option.none => st)
    (P0, 0)
  creditBenefs st.1 (distPartilha beneficiarios st.2)

/-- `processar_usufruto`: credit beneficiaries into the usufruct ledger,
default weight 100 (with Python's falsy `or`). -/
def processar_usufruto (U0 : Ledger) (beneficiarios : List Ref) : Ledger :=
  beneficiarios.foldl (fun U b => creditStep U b (pesoHeranca b)) U0

/-- `processar_alteracao_estado_civil`: attach spouse data without touching
percentages; an absent holder is created with percentage 0. -/
def processar_alteracao_estado_civil (P0 : Ledger) (agentes : List Ref) : Ledger :=
  agentes.foldl
    (fun P a =>
      let k := chave_proprietario a
      let novoConjuge := processar_conjuge a.spouse
      match lget P k with
      | some r => if r.conjuge = Option.none then lset P k { r with conjuge := novoConjuge } else P
      | Option.none => lset P k ⟨a.name, a.cpf.getD "Não informado", 0, novoConjuge⟩)
    P0

/-- The prune after each action: keep bare-ownership records strictly above
`1e-4`. -/
def pruneP (s : Ledger × Ledger) : Ledger × Ledger :=
  (s.1.filter fun kv => decide ((1 : ℚ) / 10000 < kv.2.percentual), s.2)

/-- One iteration of the dispatch loop of `processar_acoes` over the pair
(bare ledger, usufruct ledger).  The branch order follows the `elif` chain;
the rename/marriage branch executes `continue` and therefore skips the
prune, every other path reaches it. -/
def step (s : Ledger × Ledger) (acao : Acao) : Ledger × Ledger :=
  let tipo := pyLowerStr (obter_tipo_acao acao)
  if substr "alteração do estado civil e nome" tipo then
    pruneP (processar_alteracao_estado_civil s.1 acao.agents, s.2)
  else if substr "alteração nome" tipo || substr "casamento" tipo then s
  else if substr "venda" tipo || substr "sale" tipo || substr "venda nua propriedade" tipo then
    pruneP (atualizar_proprietarios_parcial s.1 acao.agents acao.beneficiaries, s.2)
  else if substr "doação" tipo || substr "donation" tipo then
    let P2 := atualizar_proprietarios_parcial s.1 acao.agents acao.beneficiaries
    let U2 :=
      if substr "usufruto" tipo || substr "reserva" (pyLowerStr (acao.additionalInfo.getD "")) then
        processar_usufruto s.2 acao.beneficiaries
      else s.2
    pruneP (P2, U2)
  else if substr "óbito" tipo || substr "falecimento" tipo || substr "death" tipo then
    pruneP (processar_obito s.1 acao.agents acao.beneficiaries, s.2)
  else if substr "partilha" tipo || substr "share" tipo then
    pruneP (processar_partilha s.1 acao.agents acao.beneficiaries, s.2)
  else if substr "usufruto" tipo || substr "usufruct" tipo then
    pruneP (s.1, processar_usufruto s.2 acao.beneficiaries)
  else if substr "cancelamento de usufruto" tipo then
    pruneP s
  else
    pruneP s

/-- The ledger fold of `processar_acoes` over the normalized action list,
starting from two empty ledgers. -/
def processar_acoes_ledgers (acoes : List Acao) : Ledger × Ledger :=
  (normalizar_e_ordenar_acoes acoes).foldl step ([], [])

/-- The ledger state after the first `k` normalized actions. -/
def estadoAposPrefixo (acoes : List Acao) (k : ℕ) : Ledger × Ledger :=
  ((normalizar_e_ordenar_acoes acoes).take k).foldl step ([], [])

/-- A reference with only a name. -/
def refPlain (n : String) : Ref := ⟨some n, Option.none, PyVal.str "", Option.none⟩

/-- A reference with a name and a raw percentage string. -/
def refPct (n p : String) : Ref := ⟨some n, Option.none, PyVal.str p, Option.none⟩

/-- A record holding `q` percent with no CPF and no spouse. -/
def regPlain (n : String) (q : ℚ) : Registro := ⟨some n, "Não informado", q, Option.none⟩


/-- An action with a type label and a date only. -/
def acaoSimples (tipo data : String) (ags bs : List Ref) : Acao :=
  ⟨some tipo, Option.none, some data, Option.none, ags, bs, Option.none⟩

def acaoCancelamento : Acao :=
  acaoSimples "Cancelamento de Usufruto" "01/01/2020" [] [refPlain "B"]

def acaoVendaISO : Acao := acaoSimples "Venda" "2020-01-01" [] []
def acaoVendaBR : Acao := acaoSimples "Venda" "01/01/2020" [] []

/-! ### Ledger lemmas -/

@[simp] lemma totalPct_nil : totalPct [] = 0 := rfl

@[simp] lemma totalPct_cons (k : String) (r : Registro) (t : Ledger) :
    totalPct ((k, r) :: t) = r.percentual + totalPct t := by
  simp [totalPct]

@[simp] lemma keysOf_nil : keysOf [] = [] := rfl

@[simp] lemma keysOf_cons (k : String) (r : Registro) (t : Ledger) :
    keysOf ((k, r) :: t) = k :: keysOf t := rfl

lemma lget_eq_none_iff (P : Ledger) (k : String) :
    lget P k = Option.none ↔ k ∉ keysOf P := by
  induction P with
  | nil => simp [lget]
  | cons kv t ih =>
    obtain ⟨k', r⟩ := kv
    by_cases h : k' = k
    · subst h; simp [lget]
    · simp only [lget, if_neg h, keysOf_cons, List.mem_cons, not_or, ih]
      have h' : ¬k = k' := fun he => h he.symm
      tauto

lemma lget_lset_self (P : Ledger) (k : String) (r : Registro) :
    lget (lset P k r) k = some r := by
  induction P with
  | nil => simp [lget, lset]
  | cons kv t ih =>
    obtain ⟨k', r'⟩ := kv
    by_cases h : k' = k <;> simp [lget, lset, h, ih]

lemma lget_lset_ne (P : Ledger) (k k' : String) (r : Registro) (h : k' ≠ k) :
    lget (lset P k r) k' = lget P k' := by
  induction P with
  | nil => simp [lget, lset, Ne.symm h]
  | cons kv t ih =>
    obtain ⟨k0, r0⟩ := kv
    by_cases h0 : k0 = k
    · subst h0; simp [lget, lset, Ne.symm h]
    · by_cases h1 : k0 = k' <;> simp [lget, lset, h0, h1, ih, h]

lemma ldel_of_lget_none (P : Ledger) (k : String) (h : lget P k = Option.none) :
    ldel P k = P := by
  induction P with
  | nil => rfl
  | cons kv t ih =>
    obtain ⟨k', r⟩ := kv
    by_cases h0 : k' = k
    · simp [lget, h0] at h
    · simp only [lget, h0, if_false] at h
      simp [ldel, h0, ih h]

lemma lget_ldel_of_none (P : Ledger) (k k' : String) (h : lget P k = Option.none) :
    lget (ldel P k') k = Option.none := by
  induction P with
  | nil => rfl
  | cons kv t ih =>
    obtain ⟨k0, r⟩ := kv
    by_cases h0 : k0 = k
    · simp [lget, h0] at h
    · simp only [lget, h0, if_false] at h
      by_cases h1 : k0 = k'
      · simpa [ldel, h1] using h
      · simp [ldel, lget, h0, h1, ih h]

lemma lget_ldel_self (P : Ledger) (k : String) (h : (keysOf P).Nodup) :
    lget (ldel P k) k = Option.none := by
  induction P with
  | nil => rfl
  | cons kv t ih =>
    obtain ⟨k0, r⟩ := kv
    simp only [keysOf_cons, List.nodup_cons] at h
    by_cases h0 : k0 = k
    · subst h0
      simpa [ldel, lget_eq_none_iff] using h.1
    · simp [ldel, lget, h0, ih h.2]

lemma totalPct_ldel (P : Ledger) (k : String) (r : Registro) (h : lget P k = some r) :
    totalPct (ldel P k) = totalPct P - r.percentual := by
  induction P with
  | nil => simp [lget] at h
  | cons kv t ih =>
    obtain ⟨k0, r0⟩ := kv
    by_cases h0 : k0 = k
    · subst h0
      simp only [lget, if_true] at h
      obtain rfl : r0 = r := by injection h
      simp only [ldel, if_true, totalPct_cons]
      ring
    · simp only [lget, h0, if_false] at h
      simp only [ldel, h0, if_false, totalPct_cons, ih h]
      ring

lemma totalPct_lset_update (P : Ledger) (k : String) (r r' : Registro)
    (h : lget P k = some r) :
    totalPct (lset P k r') = totalPct P - r.percentual + r'.percentual := by
  induction P with
  | nil => simp [lget] at h
  | cons kv t ih =>
    obtain ⟨k0, r0⟩ := kv
    by_cases h0 : k0 = k
    · subst h0
      simp only [lget, if_true] at h
      obtain rfl : r0 = r := by injection h
      simp only [lset, if_true, totalPct_cons]
      ring
    · simp only [lget, h0, if_false] at h
      simp only [lset, h0, if_false, totalPct_cons, ih h]
      ring

lemma totalPct_lset_new (P : Ledger) (k : String) (r : Registro)
    (h : lget P k = Option.none) :
    totalPct (lset P k r) = totalPct P + r.percentual := by
  induction P with
  | nil => simp [lset]
  | cons kv t ih =>
    obtain ⟨k0, r0⟩ := kv
    by_cases h0 : k0 = k
    · simp [lget, h0] at h
    · simp only [lget, h0, if_false] at h
      simp only [lset, h0, if_false, totalPct_cons, ih h]
      ring

lemma totalPct_creditStep (P : Ledger) (b : Ref) (q : ℚ) :
    totalPct (creditStep P b q) = totalPct P + q := by
  unfold creditStep
  cases h : lget P (chave_proprietario b) with
  | none =>
    simp only [h]
    rw [totalPct_lset_new P _ _ h]
    simp [mkNovo]
  | some r =>
    simp only [h]
    rw [totalPct_lset_update P _ r _ h]
    ring

lemma lget_creditStep_ne (P : Ledger) (b : Ref) (q : ℚ) (k : String)
    (h : chave_proprietario b ≠ k) :
    lget (creditStep P b q) k = lget P k := by
  unfold creditStep
  cases hg : lget P (chave_proprietario b) with
  | none =>
    simp only [hg]
    exact lget_lset_ne _ _ _ _ (Ne.symm h)
  | some r =>
    simp only [hg]
    exact lget_lset_ne _ _ _ _ (Ne.symm h)

lemma keysOf_lset_of_mem (P : Ledger) (k : String) (r r0 : Registro)
    (h : lget P k = some r0) :
    keysOf (lset P k r) = keysOf P := by
  induction P with
  | nil => simp [lget] at h
  | cons kv t ih =>
    obtain ⟨k0, r'⟩ := kv
    by_cases h0 : k0 = k
    · subst h0; simp [lset]
    · simp only [lget, h0, if_false] at h
      simp [lset, h0, ih h]

lemma keysOf_lset_of_none (P : Ledger) (k : String) (r : Registro)
    (h : lget P k = Option.none) :
    keysOf (lset P k r) = keysOf P ++ [k] := by
  induction P with
  | nil => simp [lset]
  | cons kv t ih =>
    obtain ⟨k0, r'⟩ := kv
    by_cases h0 : k0 = k
    · simp [lget, h0] at h
    · simp only [lget, h0, if_false] at h
      simp [lset, h0, ih h]

lemma keysOf_ldel_sublist (P : Ledger) (k : String) :
    (keysOf (ldel P k)).Sublist (keysOf P) := by
  induction P with
  | nil => simp [ldel]
  | cons kv t ih =>
    obtain ⟨k0, r⟩ := kv
    by_cases h0 : k0 = k
    · simp only [ldel, h0, if_pos rfl, keysOf_cons]
      exact (List.sublist_cons_self _ _)
    · simpa [ldel, h0] using ih.cons₂ k0

lemma nodup_keys_ldel (P : Ledger) (k : String) (h : (keysOf P).Nodup) :
    (keysOf (ldel P k)).Nodup :=
  (keysOf_ldel_sublist P k).nodup h

lemma nodup_keys_creditStep (P : Ledger) (b : Ref) (q : ℚ) (h : (keysOf P).Nodup) :
    (keysOf (creditStep P b q)).Nodup := by
  unfold creditStep
  cases hg : lget P (chave_proprietario b) with
  | none =>
    simp only [hg]
    rw [keysOf_lset_of_none P _ _ hg]
    have hk : chave_proprietario b ∉ keysOf P := (lget_eq_none_iff P _).mp hg
    simp [List.nodup_append, h, hk]
  | some r =>
    simp only [hg]
    rw [keysOf_lset_of_mem P _ _ r hg]
    exact h

lemma obitoStep_nil_benefs (P : Ledger) (a : Ref) :
    obitoStep [] P a = ldel P (chave_proprietario a) := by
  unfold obitoStep
  cases hg : lget P (chave_proprietario a) with
  | none =>
    simp only [hg]
    exact (ldel_of_lget_none P _ hg).symm
  | some r =>
    simp only [hg, List.map_nil, List.sum_nil, List.foldl_nil]

lemma lget_foldl_ldel_none (ags : List Ref) (P : Ledger) (k : String)
    (h : lget P k = Option.none) :
    lget (ags.foldl (fun Q a => ldel Q (chave_proprietario a)) P) k = Option.none := by
  induction ags generalizing P with
  | nil => exact h
  | cons a t ih => exact ih _ (lget_ldel_of_none _ _ _ h)

lemma processar_obito_nil_benefs (ags : List Ref) (P : Ledger) :
    processar_obito P ags [] =
      ags.foldl (fun Q a => ldel Q (chave_proprietario a)) P := by
  induction ags generalizing P with
  | nil => rfl
  | cons a t ih =>
    simp only [processar_obito, List.foldl_cons] at *
    rw [obitoStep_nil_benefs]
    exact ih _

lemma step_shape (s : Ledger × Ledger) (a : Acao) :
    step s a = s ∨ ∃ t, step s a = pruneP t := by
  simp only [step]
  repeat' split
  all_goals first
    | exact Or.inl rfl
    | exact Or.inr ⟨_, rfl⟩

lemma mem_pruneP (kv : String × Registro) (s : Ledger × Ledger)
    (h : kv ∈ (pruneP s).1) : (1 : ℚ) / 10000 < kv.2.percentual := by
  simp only [pruneP, List.mem_filter, decide_eq_true_eq] at h
  exact h.2

lemma inv_foldl_step (L : List Acao) (s0 : Ledger × Ledger)
    (h : ∀ kv ∈ s0.1, (1 : ℚ) / 10000 < kv.2.percentual) :
    ∀ kv ∈ (L.foldl step s0).1, (1 : ℚ) / 10000 < kv.2.percentual := by
  induction L generalizing s0 with
  | nil => exact h
  | cons a t ih =>
    rw [List.foldl_cons]
    refine ih _ ?_
    rcases step_shape s0 a with he | ⟨u, he⟩
    · rw [he]; exact h
    · rw [he]
      intro kv hkv
      exact mem_pruneP _ _ hkv

lemma lget_foldl_credit_none (bs : List Ref) (f : Ref → ℚ) (k : String) :
    ∀ Q : Ledger, (∀ b ∈ bs, chave_proprietario b ≠ k) → lget Q k = Option.none →
      lget (bs.foldl (fun Q b => creditStep Q b (f b)) Q) k = Option.none := by
  induction bs with
  | nil => exact fun _ _ h => h
  | cons b t ih =>
    intro Q hk h
    rw [List.foldl_cons]
    refine ih _ (fun b hb => hk b (List.mem_cons_of_mem _ hb)) ?_
    rw [lget_creditStep_ne _ _ _ _ (hk b (List.mem_cons_self _ _))]
    exact h

lemma totalPct_foldl_credit (bs : List Ref) (f : Ref → ℚ) (Q : Ledger) :
    totalPct (bs.foldl (fun Q b => creditStep Q b (f b)) Q) =
      totalPct Q + (bs.map f).sum := by
  induction bs generalizing Q with
  | nil => simp
  | cons b t ih =>
    rw [List.foldl_cons, ih, totalPct_creditStep]
    simp only [List.map_cons, List.sum_cons]
    ring

lemma nodup_keys_foldl_credit (bs : List Ref) (f : Ref → ℚ) (Q : Ledger)
    (h : (keysOf Q).Nodup) :
    (keysOf (bs.foldl (fun Q b => creditStep Q b (f b)) Q)).Nodup := by
  induction bs generalizing Q with
  | nil => exact h
  | cons b t ih =>
    rw [List.foldl_cons]
    exact ih _ (nodup_keys_creditStep _ _ _ h)

lemma sum_obito_shares (bs : List Ref) (share T : ℚ) (hT : T ≠ 0)
    (hsum : (bs.map pesoHeranca).sum = T) :
    (bs.map fun b => share * (pesoHeranca b / T)).sum = share := by
  have hfun : (fun b => share * (pesoHeranca b / T)) =
      fun b => share / T * pesoHeranca b := by
    funext b
    ring
  rw [hfun, List.sum_map_mul_left, hsum]
  field_simp

lemma obitoStep_total (bs : List Ref) (Q : Ledger) (a : Ref)
    (hbs : bs ≠ []) (hw : ∀ b ∈ bs, 0 < pesoHeranca b) :
    totalPct (obitoStep bs Q a) = totalPct Q := by
  unfold obitoStep
  cases hg : lget Q (chave_proprietario a) with
  | none => simp only [hg]
  | some r =>
    simp only [hg]
    have hT : 0 < (bs.map pesoHeranca).sum := by
      refine List.sum_pos _ ?_ (by simpa using hbs)
      intro x hx
      obtain ⟨b, hb, rfl⟩ := List.mem_map.mp hx
      exact hw b hb
    simp only [if_pos hT]
    rw [totalPct_foldl_credit bs (fun b => r.percentual * (pesoHeranca b / (bs.map pesoHeranca).sum)) _]
    rw [totalPct_ldel Q _ r hg]
    rw [sum_obito_shares bs r.percentual _ (ne_of_gt hT) rfl]
    ring

lemma lget_obitoStep_none (bs : List Ref) (Q : Ledger) (a : Ref) (k : String)
    (hk : ∀ b ∈ bs, chave_proprietario b ≠ k) (h : lget Q k = Option.none) :
    lget (obitoStep bs Q a) k = Option.none := by
  unfold obitoStep
  cases hg : lget Q (chave_proprietario a) with
  | none => simpa only [hg] using h
  | some r =>
    simp only [hg]
    exact lget_foldl_credit_none bs _ _ _ hk (lget_ldel_of_none _ _ _ h)

lemma obitoStep_self_none (bs : List Ref) (Q : Ledger) (a : Ref)
    (hnd : (keysOf Q).Nodup) (hk : ∀ b ∈ bs, chave_proprietario b ≠ chave_proprietario a) :
    lget (obitoStep bs Q a) (chave_proprietario a) = Option.none := by
  unfold obitoStep
  cases hg : lget Q (chave_proprietario a) with
  | none => exact hg
  | some r =>
    simp only [hg]
    exact lget_foldl_credit_none bs _ _ _ hk (lget_ldel_self Q _ hnd)

lemma nodup_keys_obitoStep (bs : List Ref) (Q : Ledger) (a : Ref)
    (h : (keysOf Q).Nodup) : (keysOf (obitoStep bs Q a)).Nodup := by
  unfold obitoStep
  cases hg : lget Q (chave_proprietario a) with
  | none => simpa only [hg] using h
  | some r =>
    simp only [hg]
    exact nodup_keys_foldl_credit bs _ _ (nodup_keys_ldel Q _ h)

lemma lget_foldl_obitoStep_none (bs ags : List Ref) (Q : Ledger) (k : String)
    (hk : ∀ b ∈ bs, chave_proprietario b ≠ k) (h : lget Q k = Option.none) :
    lget (ags.foldl (obitoStep bs) Q) k = Option.none := by
  induction ags generalizing Q with
  | nil => exact h
  | cons a t ih =>
    rw [List.foldl_cons]
    exact ih _ (lget_obitoStep_none bs _ _ _ hk h)

lemma mem_lset (P : Ledger) (k : String) (r : Registro) (kv : String × Registro)
    (h : kv ∈ lset P k r) : kv ∈ P ∨ kv = (k, r) := by
  induction P with
  | nil =>
    simp only [lset, List.mem_singleton] at h
    exact Or.inr h
  | cons kv0 t ih =>
    obtain ⟨k0, r0⟩ := kv0
    by_cases h0 : k0 = k
    · subst h0
      simp only [lset, if_true, List.mem_cons] at h
      rcases h with h1 | h1
      · exact Or.inr h1
      · exact Or.inl (List.mem_cons_of_mem _ h1)
    · simp only [lset, if_neg h0, List.mem_cons] at h
      rcases h with h1 | h1
      · exact Or.inl (h1 ▸ List.mem_cons_self _ _)
      · rcases ih h1 with h2 | h2
        · exact Or.inl (List.mem_cons_of_mem _ h2)
        · exact Or.inr h2

lemma lget_mem (P : Ledger) (k : String) (r : Registro) (h : lget P k = some r) :
    (k, r) ∈ P := by
  induction P with
  | nil => cases h
  | cons kv0 t ih =>
    obtain ⟨k0, r0⟩ := kv0
    by_cases h0 : k0 = k
    · subst h0
      simp only [lget, if_pos rfl] at h
      obtain rfl : r0 = r := by injection h
      exact List.mem_cons_self _ _
    · simp only [lget, if_neg h0] at h
      exact List.mem_cons_of_mem _ (ih h)

lemma lget_lset_isSome (P : Ledger) (k k0 : String) (r : Registro)
    (h : (lget P k).isSome) : (lget (lset P k0 r) k).isSome := by
  by_cases he : k0 = k
  · subst he
    rw [lget_lset_self]
    rfl
  · rw [lget_lset_ne _ _ _ _ (fun hc => he hc.symm)]
    exact h

lemma equalInit_aux_pct (l : List Ref) (c : ℚ) :
    ∀ acc : Ledger, (∀ kv ∈ acc, kv.2.percentual = c) →
      ∀ kv ∈ l.foldl (fun acc a => lset acc (chave_proprietario a) (mkNovo a c)) acc,
        kv.2.percentual = c := by
  induction l with
  | nil => exact fun _ h => h
  | cons a t ih =>
    intro acc hacc
    rw [List.foldl_cons]
    refine ih _ ?_
    intro kv hkv
    rcases mem_lset _ _ _ _ hkv with h | h
    · exact hacc kv h
    · rw [h]
      rfl

lemma equalInit_aux_mem (l : List Ref) (c : ℚ) :
    ∀ acc : Ledger, ∀ a ∈ l,
      (lget (l.foldl (fun acc a => lset acc (chave_proprietario a) (mkNovo a c)) acc)
        (chave_proprietario a)).isSome := by
  induction l with
  | nil => intro _ a ha; cases ha
  | cons a0 t ih =>
    intro acc a ha
    rw [List.foldl_cons]
    rcases List.mem_cons.mp ha with rfl | hat
    · have h0 : (lget (lset acc (chave_proprietario a) (mkNovo a c))
          (chave_proprietario a)).isSome := by
        rw [lget_lset_self]; rfl
      clear ih ha
      generalize lset acc (chave_proprietario a) (mkNovo a c) = acc1 at h0 ⊢
      induction t generalizing acc1 with
      | nil => exact h0
      | cons b u ihu =>
        rw [List.foldl_cons]
        exact ihu _ (lget_lset_isSome _ _ _ _ h0)
    · exact ih _ a hat

lemma equalInit_pct (ags : List Ref) :
    ∀ kv ∈ equalInit ags, kv.2.percentual = 100 / (ags.length : ℚ) :=
  equalInit_aux_pct ags _ [] (fun _ h => absurd h (List.not_mem_nil _))

lemma equalInit_holds_each (ags : List Ref) :
    ∀ a ∈ ags, ∃ r, lget (equalInit ags) (chave_proprietario a) = some r ∧
      r.percentual = 100 / (ags.length : ℚ) := by
  intro a ha
  have hs : (lget (equalInit ags) (chave_proprietario a)).isSome :=
    equalInit_aux_mem ags (100 / (ags.length : ℚ)) [] a ha
  cases hr : lget (equalInit ags) (chave_proprietario a) with
  | none => rw [hr] at hs; cases hs
  | some r =>
    refine ⟨r, rfl, ?_⟩
    exact equalInit_pct ags (chave_proprietario a, r) (lget_mem _ _ _ hr)

lemma processar_obito_empty_ledger (bs ags : List Ref) :
    processar_obito [] ags bs = [] := by
  unfold processar_obito
  induction ags with
  | nil => rfl
  | cons a t ih =>
    rw [List.foldl_cons]
    have h : obitoStep bs [] a = [] := rfl
    rw [h]
    exact ih

lemma partilha_agents_fold_empty (ags : List Ref) :
    ags.foldl
      (fun (st : Ledger × ℚ) a =>
        match lget st.1 (chave_proprietario a) with
        | some r => (ldel st.1 (chave_proprietario a), st.2 + r.percentual)
        | Option.none => st)
      ([], 0) = ([], 0) := by
  induction ags with
  | nil => rfl
  | cons a t ih =>
    rw [List.foldl_cons]
    exact ih

lemma digitChar_ge_nine (m : ℕ) : digitChar (m + 9) = '9' := rfl

lemma digitChar_ne_slash (n : ℕ) : digitChar n ≠ '/' := by
  rcases Nat.lt_or_ge n 9 with h | h
  · interval_cases n <;> decide
  · obtain ⟨m, rfl⟩ := Nat.exists_eq_add_of_le h
    rw [show 9 + m = m + 9 from by omega, digitChar_ge_nine]
    decide

lemma digitChar_not_ws (n : ℕ) : (digitChar n).isWhitespace = false := by
  rcases Nat.lt_or_ge n 9 with h | h
  · interval_cases n <;> decide
  · obtain ⟨m, rfl⟩ := Nat.exists_eq_add_of_le h
    rw [show 9 + m = m + 9 from by omega, digitChar_ge_nine]
    decide

lemma digitVal_digitChar (n : ℕ) (h : n < 10) : digitVal (digitChar n) = some n := by
  interval_cases n <;> decide

lemma daysInMonth_le (y m : ℕ) : daysInMonth y m ≤ 31 := by
  unfold daysInMonth
  split
  · split <;> omega
  · split <;> omega

lemma yearChars_1000 (y : ℕ) (h : 1000 ≤ y) :
    yearChars y =
      [digitChar (y / 1000), digitChar (y / 100 % 10), digitChar (y / 10 % 10),
        digitChar (y % 10)] := by
  rw [yearChars, if_pos h]

lemma strftime_data (d : DateT) :
    (strftimeDMY d).data = two d.day ++ '/' :: two d.month ++ '/' :: yearChars d.year := rfl

lemma pyStrip_fmt (d : DateT) (h : 1000 ≤ d.year) :
    pyStripChars (strftimeDMY d).data = (strftimeDMY d).data := by
  rw [strftime_data, yearChars_1000 _ h]
  simp only [two, List.cons_append, List.nil_append]
  simp [pyStripChars, List.dropWhile, digitChar_not_ws]

lemma split_fmt (d : DateT) (h : 1000 ≤ d.year) :
    splitOnChar '/' (strftimeDMY d).data = [two d.day, two d.month, yearChars d.year] := by
  rw [strftime_data, yearChars_1000 _ h]
  simp only [two, List.cons_append, List.nil_append]
  simp [splitOnChar, digitChar_ne_slash, yearChars_1000 _ h]

lemma parseDay_two (dd : ℕ) (h1 : 1 ≤ dd) (h2 : dd ≤ 31) :
    parseDayChars (two dd) = some dd := by
  have ha : dd / 10 < 10 := by omega
  have hb : dd % 10 < 10 := by omega
  have he : 10 * (dd / 10) + dd % 10 = dd := by omega
  simp only [two, parseDayChars, digitVal_digitChar _ ha, digitVal_digitChar _ hb, he]
  rw [if_pos ⟨h1, h2⟩]

lemma parseMonth_two (mm : ℕ) (h1 : 1 ≤ mm) (h2 : mm ≤ 12) :
    parseMonthChars (two mm) = some mm := by
  have ha : mm / 10 < 10 := by omega
  have hb : mm % 10 < 10 := by omega
  have he : 10 * (mm / 10) + mm % 10 = mm := by omega
  simp only [two, parseMonthChars, digitVal_digitChar _ ha, digitVal_digitChar _ hb, he]
  rw [if_pos ⟨h1, h2⟩]

lemma parseYear_four (y : ℕ) (h1 : 1000 ≤ y) (h2 : y ≤ 9999) :
    parseYearChars (yearChars y) = some y := by
  have ha : y / 1000 < 10 := by omega
  have hb : y / 100 % 10 < 10 := by omega
  have hc : y / 10 % 10 < 10 := by omega
  have hd : y % 10 < 10 := by omega
  have he : ((y / 1000 * 10 + y / 100 % 10) * 10 + y / 10 % 10) * 10 + y % 10 = y := by
    omega
  rw [yearChars_1000 _ h1]
  simp only [parseYearChars, digitVal_digitChar _ ha, digitVal_digitChar _ hb,
    digitVal_digitChar _ hc, digitVal_digitChar _ hd, he]

lemma fmtDMY_fmt (d : DateT) (h : dateOK d) : fmtDMY (strftimeDMY d).data = some d := by
  obtain ⟨hy1, hy2, hm1, hm2, hd1, hd2⟩ := h
  have hd31 : d.day ≤ 31 := le_trans hd2 (daysInMonth_le d.year d.month)
  unfold fmtDMY
  rw [split_fmt d hy1]
  simp only [parseDay_two d.day hd1 hd31, parseMonth_two d.month hm1 hm2,
    parseYear_four d.year hy1 hy2]
  unfold mkDatetime
  rw [if_pos ⟨by omega, hy2, hm1, hm2, hd1, hd2⟩]

lemma parse_data_strftime (d : DateT) (h : dateOK d) :
    parse_data (strftimeDMY d) = d := by
  simp only [parse_data]
  rw [pyStrip_fmt d h.1, fmtDMY_fmt d h]

lemma strftime_ne_empty (d : DateT) : strftimeDMY d ≠ "" := by
  intro hc
  have h2 := congrArg String.data hc
  rw [strftime_data] at h2
  simp [two] at h2

lemma setCanonical_fixed (a : Acao) (d : DateT) (hOK : dateOK d)
    (hdate : a.date = some (strftimeDMY d)) : setCanonicalDate a = a := by
  have hget : pyGetDate a = strftimeDMY d := by
    simp [pyGetDate, pyOr, hdate, strftime_ne_empty d]
  unfold setCanonicalDate
  rw [hget, parse_data_strftime d hOK, ← hdate]

lemma dedupLoop_id (L : List Acao) :
    ∀ seen, (∀ a ∈ L, setCanonicalDate a = a) → (L.map dedupKey).Nodup →
      (∀ a ∈ L, dedupKey a ∉ seen) → dedupLoop L seen = L := by
  induction L with
  | nil => intro _ _ _ _; rfl
  | cons a t ih =>
    intro seen hcanon hnd hseen
    rw [dedupLoop, if_neg (hseen a (List.mem_cons_self _ _))]
    simp only [List.map_cons, List.nodup_cons] at hnd
    rw [hcanon a (List.mem_cons_self _ _)]
    congr 1
    refine ih _ (fun b hb => hcanon b (List.mem_cons_of_mem _ hb)) hnd.2 ?_
    intro b hb
    simp only [List.mem_cons, not_or]
    refine ⟨?_, hseen b (List.mem_cons_of_mem _ hb)⟩
    intro hc
    exact hnd.1 (hc ▸ List.mem_map_of_mem dedupKey hb)

/-! ### Claim theorems -/

/-- C1: the claim states that for every transfer the debited total equals the
credited total, and in particular that an agent holding 100% transferring 50%
to a sole beneficiary X with no declared received percentage leaves the agent
at 50% and X at 50%.  Evaluating `atualizar_proprietarios_parcial` at exactly
that input shows the code credits X with `100/1 = 100`, not with the
transferred 50: the debited total (50) differs from the credited total (100),
contradicting the claim and the function's own docstring. -/
theorem C1_transfer_equal_split_uses_100_not_total :
    atualizar_proprietarios_parcial [("A", regPlain "A" 100)] [refPct "A" "50"]
        [refPlain "X"] =
      [("A", regPlain "A" 50), ("X", regPlain "X" 100)] ∧
    (100 : ℚ) ≠ 50 := by
  constructor
  · decide
  · decide

/-- C2: the claim states that when the declared beneficiary percentages sum
beyond `totalTransferred`, every declared value is rescaled down
proportionally to fit.  Evaluating the transfer at an input where the agent
transfers 50 while the beneficiaries declare 60 and 70 shows the code
credits the declared values unchanged (totalling 130), performing no rescaling
even though it logs a normalization warning. -/
theorem C2_declared_sum_exceeding_total_not_rescaled :
    atualizar_proprietarios_parcial [("A", regPlain "A" 100)] [refPct "A" "50"]
        [refPct "B1" "60", refPct "B2" "70"] =
      [("A", regPlain "A" 50), ("B1", regPlain "B1" 60), ("B2", regPlain "B2" 70)] ∧
    (60 : ℚ) + 70 ≠ 50 := by
  constructor
  · decide
  · decide

/-- C5: the claim states that a usufruct-cancellation action leaves both
ledgers completely unchanged.  The dispatch chain tests `"usufruto" in tipo`
before `"cancelamento de usufruto" in tipo`, so a cancellation action is
routed to `processar_usufruto`: evaluating the step on empty ledgers shows
the usufruct ledger gains the beneficiary at 100%. -/
theorem C5_cancellation_processed_as_usufruct_grant :
    substr "cancelamento de usufruto" (pyLowerStr (obter_tipo_acao acaoCancelamento)) = true ∧
    step ([], []) acaoCancelamento = ([], [("B", regPlain "B" 100)]) ∧
    (([], [("B", regPlain "B" 100)]) : Ledger × Ledger) ≠ ([], []) := by
  refine ⟨by decide, by decide, by decide⟩

/-- C3 counterexample: the claim asserts that for every death action the
deceased's full pre-action share equals the sum of the credits applied to
the beneficiaries.  With an empty beneficiaries list the owner holding 40%
is removed and nothing is credited: the ledger total drops from 40 to 0,
so the asserted equality (40 = 0) fails. -/
theorem C3_counterexample_empty_beneficiaries :
    processar_obito [("A", regPlain "A" 40)] [refPlain "A"] [] = [] ∧
    totalPct [("A", regPlain "A" 40)] = 40 ∧
    (40 : ℚ) ≠ 0 := by
  refine ⟨by decide, by decide, by decide⟩

/-- C4 counterexample: the claim asserts that every action category
bootstraps an empty ledger from its agents list.  Evaluating a death action
on the empty ledger with agent A and beneficiary B shows the ledger stays
empty: no 100/N records are initialized (under the claim, A's bootstrapped
100% would have been redistributed to B). -/
theorem C4_counterexample_death_no_bootstrap :
    processar_obito [] [refPlain "A"] [refPlain "B"] = [] ∧
    ([] : Ledger) ≠ [("B", regPlain "B" 100)] := by
  refine ⟨by decide, by decide⟩

/-- C6 counterexample: the claim asserts that every input representing a
numeric value `v > 1` is returned unchanged.  The fraction `"3/2"`
represents 1.5 but the fraction branch always multiplies by 100, returning
150. -/
theorem C6_counterexample_improper_fraction :
    parse_percentual (PyVal.str "3/2") = some 150 ∧
    ¬((3 : ℚ) / 2 ≤ 1) ∧
    parse_percentual (PyVal.str "3/2") ≠ some ((3 : ℚ) / 2) := by
  refine ⟨by decide, by decide, by decide⟩

/-- C6 (amended): the percentage parser maps "50" to 50, "0.5" to 50,
"1/2" to 50, and "" and "não informado" to the unknown marker; float inputs
are returned unchanged; fraction strings `a/b` are always scaled by 100
(so "3/2" gives 150); and every non-fraction, non-sentinel numeric string
whose cleaned text parses to `v` yields `v * 100` when `v ≤ 1` and `v`
unchanged when `v > 1`. -/
theorem C6_parser_examples_and_rule :
    parse_percentual (PyVal.str "50") = some 50 ∧
    parse_percentual (PyVal.str "0.5") = some 50 ∧
    parse_percentual (PyVal.str "1/2") = some 50 ∧
    parse_percentual (PyVal.str "") = Option.none ∧
    parse_percentual (PyVal.str "não informado") = Option.none ∧
    parse_percentual (PyVal.str "3/2") = some 150 ∧
    (∀ q : ℚ, parse_percentual (PyVal.float q) = some q) ∧
    (∀ (s : String) (v : ℚ), pyStrip s ≠ "" →
      sentinelSet.contains (pyLowerStr (pyStrip s)) = false →
      (pyStrip s).data.contains '/' = false →
      pyFloatChars (cleanChars (pyStrip s).data) = some v →
      parse_percentual (PyVal.str s) = some (if v ≤ 1 then v * 100 else v)) := by
  refine ⟨by decide, by decide, by decide, by decide, by decide, by decide,
    fun q => rfl, ?_⟩
  intro s v h1 h2 h3 h4
  have hs : s ≠ "" := by
    intro he
    exact h1 (by rw [he]; rfl)
  simp only [parse_percentual]
  rw [if_neg hs, if_neg (by rw [h2]; decide)]
  simp only [parse_body]
  rw [if_neg (by rw [h3]; decide), h4]

/-- C6 witness: the general numeric-string rule applied at "2". -/
theorem C6_witness :
    parse_percentual (PyVal.str "2") = some (if (2 : ℚ) ≤ 1 then 2 * 100 else 2) :=
  C6_parser_examples_and_rule.2.2.2.2.2.2.2 "2" 2 (by decide) (by decide)
    (by decide) (by decide)

/-- C7: any input on which the `try` body of the parser raises (a value
error from unparseable text, or a zero-division error from a fraction with
denominator 0) makes `parse_percentual` return the unknown marker `None`;
both exception classes are caught, so no input raises. -/
theorem C7_parse_failures_yield_none :
    (∀ (s : String) (e : PErr), parse_body (pyStrip s).data = Except.error e →
      parse_percentual (PyVal.str s) = Option.none) ∧
    parse_percentual (PyVal.str "abc") = Option.none ∧
    parse_percentual (PyVal.str "1/0") = Option.none ∧
    parse_percentual (PyVal.str "12.3.4") = Option.none := by
  refine ⟨?_, by decide, by decide, by decide⟩
  intro s e h
  simp only [parse_percentual]
  by_cases hs : s = ""
  · rw [if_pos hs]
  · rw [if_neg hs]
    by_cases hsent : sentinelSet.contains (pyLowerStr (pyStrip s)) = true
    · rw [if_pos hsent]
    · rw [if_neg hsent, h]

/-- C7 witness: the general error-absorption rule applied to the fraction
"7/0", whose body raises a zero-division error. -/
theorem C7_witness : parse_percentual (PyVal.str "7/0") = Option.none :=
  C7_parse_failures_yield_none.1 "7/0" PErr.zeroDivisionError (by decide)

/-- C10: for every death action with an empty beneficiaries list, the whole
action is just the deletion of each listed deceased agent: every listed
agent's key is absent afterwards (given unique ledger keys), no holder is
credited, and for a single deceased agent the ledger total decreases by
exactly that agent's recorded share. -/
theorem C10_death_without_heirs_discards_share :
    (∀ (P : Ledger) (ags : List Ref),
      processar_obito P ags [] =
        ags.foldl (fun Q a => ldel Q (chave_proprietario a)) P) ∧
    (∀ (P : Ledger) (ags : List Ref), (keysOf P).Nodup →
      ∀ a ∈ ags, lget (processar_obito P ags []) (chave_proprietario a) = Option.none) ∧
    (∀ (P : Ledger) (a : Ref),
      totalPct (processar_obito P [a] []) =
        totalPct P - pctOf P (chave_proprietario a)) := by
  refine ⟨fun P ags => processar_obito_nil_benefs ags P, ?_, ?_⟩
  · intro P ags hnd a ha
    rw [processar_obito_nil_benefs]
    induction ags generalizing P with
    | nil => cases ha
    | cons a0 t ih =>
      rw [List.foldl_cons]
      rcases List.mem_cons.mp ha with rfl | hat
      · exact lget_foldl_ldel_none t _ _ (lget_ldel_self P _ hnd)
      · exact ih _ (nodup_keys_ldel P _ hnd) hat
  · intro P a
    rw [processar_obito_nil_benefs]
    simp only [List.foldl_cons, List.foldl_nil]
    cases hg : lget P (chave_proprietario a) with
    | none =>
      rw [ldel_of_lget_none P _ hg]
      simp [pctOf, hg]
    | some r =>
      rw [totalPct_ldel P _ r hg]
      simp [pctOf, hg]

/-- C10 witness: a death of A (holding 40%) with no heirs empties the record
and decreases the total by A's share. -/
theorem C10_witness :
    lget (processar_obito [("A", regPlain "A" 40)] [refPlain "A"] [])
        (chave_proprietario (refPlain "A")) = Option.none ∧
    totalPct (processar_obito [("A", regPlain "A" 40)] [refPlain "A"] []) =
      totalPct [("A", regPlain "A" 40)] -
        pctOf [("A", regPlain "A" 40)] (chave_proprietario (refPlain "A")) :=
  ⟨C10_death_without_heirs_discards_share.2.1 [("A", regPlain "A" 40)] [refPlain "A"]
      (by decide) (refPlain "A") (by decide),
    C10_death_without_heirs_discards_share.2.2 [("A", regPlain "A" 40)] (refPlain "A")⟩

/-- C9: after every applied action of any action sequence (that is, after
every prefix of the normalized list is folded over the two ledgers), every
surviving bare-ownership record has percentage strictly greater than 1e-4,
and in particular never negative: records at or below the threshold are
pruned at the end of each loop iteration, and the rename/marriage branch
that skips the prune also leaves the ledger untouched. -/
theorem C9_ledger_records_above_epsilon :
    ∀ (acoes : List Acao) (k : ℕ), ∀ kv ∈ (estadoAposPrefixo acoes k).1,
      (1 : ℚ) / 10000 < kv.2.percentual ∧ 0 ≤ kv.2.percentual := by
  intro acoes k kv hkv
  have h := inv_foldl_step ((normalizar_e_ordenar_acoes acoes).take k) ([], [])
    (by intro kv h; cases h) kv hkv
  exact ⟨h, le_of_lt (lt_trans (by norm_num) h)⟩

/-- C9 witness: after the single bootstrap sale action, A's surviving record
(at 100%) is above the pruning threshold and nonnegative. -/
theorem C9_witness :
    (1 : ℚ) / 10000 < (("A", regPlain "A" 100) : String × Registro).2.percentual ∧
    (0 : ℚ) ≤ (("A", regPlain "A" 100) : String × Registro).2.percentual :=
  C9_ledger_records_above_epsilon [acaoSimples "Venda" "01/01/2020" [refPlain "A"] []] 1
    ("A", regPlain "A" 100) (by decide)

/-- C3 (amended): for every death action, each listed deceased agent present
in the bare ledger is removed; when the heirs list is non-empty, every
heir weight (declared percentage, defaulting to 100 when undeclared or
declared zero) is positive, ledger keys are unique and no heir shares a
deceased agent's key, the removed share is fully redistributed
(`share * w / Σw` per heir), so the deceased keys are absent afterwards and
the ledger total is conserved. -/
theorem C3_death_conserves_total_with_heirs :
    ∀ (P : Ledger) (ags bs : List Ref),
      bs ≠ [] →
      (∀ b ∈ bs, 0 < pesoHeranca b) →
      (∀ a ∈ ags, ∀ b ∈ bs, chave_proprietario b ≠ chave_proprietario a) →
      (keysOf P).Nodup →
      (∀ a ∈ ags, lget (processar_obito P ags bs) (chave_proprietario a) = Option.none) ∧
      totalPct (processar_obito P ags bs) = totalPct P := by
  intro P ags bs hbs hw hdisj hnd
  unfold processar_obito
  induction ags generalizing P with
  | nil => exact ⟨fun a ha => absurd ha (List.not_mem_nil a), rfl⟩
  | cons a0 t ih =>
    have hdisj0 : ∀ b ∈ bs, chave_proprietario b ≠ chave_proprietario a0 :=
      hdisj a0 (List.mem_cons_self _ _)
    have hdisjt : ∀ a ∈ t, ∀ b ∈ bs, chave_proprietario b ≠ chave_proprietario a :=
      fun a ha => hdisj a (List.mem_cons_of_mem _ ha)
    have hnd1 : (keysOf (obitoStep bs P a0)).Nodup := nodup_keys_obitoStep bs P a0 hnd
    obtain ⟨ihAbs, ihTot⟩ := ih (obitoStep bs P a0) hdisjt hnd1
    rw [List.foldl_cons]
    refine ⟨?_, ?_⟩
    · intro a ha
      rcases List.mem_cons.mp ha with rfl | hat
      · exact lget_foldl_obitoStep_none bs t _ _ hdisj0
          (obitoStep_self_none bs P a hnd hdisj0)
      · exact ihAbs a hat
    · rw [ihTot, obitoStep_total bs P a0 hbs hw]

/-- C3 witness: owner A at 40% dies with two undeclared heirs; A's key is
gone and the ledger total is conserved (each heir receives 20%). -/
theorem C3_witness :
    lget (processar_obito [("A", regPlain "A" 40)] [refPlain "A"]
        [refPlain "H1", refPlain "H2"]) (chave_proprietario (refPlain "A")) = Option.none ∧
    totalPct (processar_obito [("A", regPlain "A" 40)] [refPlain "A"]
        [refPlain "H1", refPlain "H2"]) = totalPct [("A", regPlain "A" 40)] := by
  have h := C3_death_conserves_total_with_heirs [("A", regPlain "A" 40)] [refPlain "A"]
    [refPlain "H1", refPlain "H2"] (by decide) (by decide) (by decide) (by decide)
  exact ⟨h.1 (refPlain "A") (by decide), h.2⟩

/-- C4 (amended): only transfer (sale/donation) actions bootstrap an empty
bare ledger.  For a non-empty agents list, `atualizar_proprietarios_parcial`
on the empty ledger first initializes one record per agent, each at
`100/N` percent, and then runs its debit and credit phases on that
initialized ledger; a death action applied to the empty ledger leaves it
empty (no such initialization), and a partition action applied to the empty
ledger behaves exactly as if its agents list were empty. -/
theorem C4_bootstrap_only_for_transfer :
    ∀ (ags bs : List Ref), ags ≠ [] →
      (atualizar_proprietarios_parcial [] ags bs =
        creditBenefs (debitAgentes (equalInit ags) ags).1
          (distTransfer bs (debitAgentes (equalInit ags) ags).2)) ∧
      (∀ a ∈ ags, ∃ r, lget (equalInit ags) (chave_proprietario a) = some r ∧
        r.percentual = 100 / (ags.length : ℚ)) ∧
      processar_obito [] ags bs = [] ∧
      processar_partilha [] ags bs = processar_partilha [] [] bs := by
  intro ags bs h
  refine ⟨?_, equalInit_holds_each ags, processar_obito_empty_ledger bs ags, ?_⟩
  · unfold atualizar_proprietarios_parcial
    rw [if_pos ⟨rfl, h⟩]
  · unfold processar_partilha
    rw [partilha_agents_fold_empty ags]
    rfl

/-- C4 witness: the amended statement instantiated with one agent and no
beneficiaries. -/
theorem C4_witness :
    atualizar_proprietarios_parcial [] [refPlain "A"] [] =
      creditBenefs (debitAgentes (equalInit [refPlain "A"]) [refPlain "A"]).1
        (distTransfer [] (debitAgentes (equalInit [refPlain "A"]) [refPlain "A"]).2) ∧
    processar_obito [] [refPlain "A"] [] = [] := by
  have h := C4_bootstrap_only_for_transfer [refPlain "A"] [] (by decide)
  exact ⟨h.1, h.2.2.1⟩

/-- C8 counterexample: the claim asserts that the normalizer is a no-op on
any already sorted, already deduplicated list — in particular on its own
output.  A singleton list whose date is the ISO string "2020-01-01" is
trivially sorted and deduplicated, yet the normalizer rewrites the date to
"01/01/2020"; and re-normalizing the normalizer's own output of two actions
whose distinct raw dates canonicalize to the same day drops the second
action, because the dedup key uses the raw date string of the first pass
and the canonical date of the second. -/
theorem C8_counterexample_not_idempotent :
    ([acaoVendaISO].map dedupKey).Nodup ∧
    List.Sorted acaoRel [acaoVendaISO] ∧
    normalizar_e_ordenar_acoes [acaoVendaISO] ≠ [acaoVendaISO] ∧
    normalizar_e_ordenar_acoes (normalizar_e_ordenar_acoes [acaoVendaBR, acaoVendaISO]) ≠
      normalizar_e_ordenar_acoes [acaoVendaBR, acaoVendaISO] := by
  refine ⟨by decide, List.sorted_singleton _, by decide, by decide⟩

/-- C8 (amended): the normalizer is a no-op exactly on lists that are
already in output shape everywhere the claim needs: if every action's
`Date` field is already a canonical dd/mm/yyyy rendering of a valid
four-digit-year date, the dedup keys are pairwise distinct, and the list is
sorted by (parsed date, lower-cased type label), then
`normalizar_e_ordenar_acoes` returns the list unchanged.  (The normalizer's
own output always has canonical dates and is sorted, but need not have
distinct keys, which is what breaks idempotence in general.) -/
theorem C8_normalizer_fixed_point :
    ∀ L : List Acao,
      (∀ a ∈ L, ∃ d, dateOK d ∧ a.date = some (strftimeDMY d)) →
      (L.map dedupKey).Nodup →
      List.Sorted acaoRel L →
      normalizar_e_ordenar_acoes L = L := by
  intro L hc hnd hs
  unfold normalizar_e_ordenar_acoes
  rw [dedupLoop_id L []
    (fun a ha => by
      obtain ⟨d, hOK, hdate⟩ := hc a ha
      exact setCanonical_fixed a d hOK hdate)
    hnd (fun a _ => List.not_mem_nil _)]
  exact hs.insertionSort_eq

/-- C8 witness: the fixed-point statement applied to a singleton list whose
date is already canonical. -/
theorem C8_witness : normalizar_e_ordenar_acoes [acaoVendaBR] = [acaoVendaBR] :=
  C8_normalizer_fixed_point [acaoVendaBR]
    (fun a ha => by
      rw [List.mem_singleton] at ha
      subst ha
      exact ⟨⟨2020, 1, 1⟩, by decide, by decide⟩)
    (by decide) (List.sorted_singleton _)

end BraGeo
